import Mathlib

/-
Verification of the menu-intelligence pipeline of the virtual-nutritionist
backend (FastAPI + SQLAlchemy).  The Lean definitions below are a shallow
embedding of the Python sources:

  backend/services/menu_photo_service.py   (photo gate, screening loop, dedup)
  backend/services/vision_service.py       (menu extraction parse contract)
  backend/services/inference_service.py    (protocol trigger composition)
  backend/routers/restaurants.py           (freshness labels, analyze endpoint)

External effects (HTTP, SQLAlchemy sessions, the Anthropic vision API, the
Google places API) are modelled by explicit parameters: the outcome of each
external call is an input to the embedded function, and database state is
passed explicitly.  Strings are modelled with Lean `String` restricted to
the ASCII behaviour of Python `str.lower`/`str.strip`.  Python floats in
[0,1] (menu-detection confidences) are modelled as rationals, which keeps
the ordering structure of the comparisons the code performs.
-/

namespace MenuPipeline

/-- Python `s.lower().strip()` on the character list of a string:
map to lower case, then drop leading and trailing whitespace.
This is the deduplication key `item["name"].lower().strip()` used in
`menu_photo_service.deduplicate_menu_items` (ASCII behaviour). -/
def lowerStrip (s : String) : String :=
  String.mk
    ((((s.data.map Char.toLower).dropWhile Char.isWhitespace).reverse.dropWhile
        Char.isWhitespace).reverse)

/-- A structured menu item as produced by the vision extraction step and
consumed by the router: `name`, `safety` (safe / caution / avoid),
`triggers`, `notes`.  Mirrors the dict shape of
`vision_service.analyze_menu_image`'s output elements. -/
structure MenuItem where
  name : String
  safety : String
  triggers : List String
  notes : String
deriving Repr, DecidableEq

/- ----------------------------------------------------------------------
   menu_photo_service.py
   ---------------------------------------------------------------------- -/

/-- Result of `MenuPhotoService.is_menu_photo`: the parsed verdict dict
`is_menu / confidence / reason`.  The external vision call either yields a
parsed verdict or (on any exception) the conservative default
`is_menu=False, confidence=0.0`; both cases are values of this type, so a
candidate's verdict is an oracle input to the screening loop. -/
structure Detection where
  is_menu : Bool
  confidence : ℚ
  reason : String
deriving Repr, DecidableEq

/-- A candidate catalog photo together with the outcomes of the external
calls the loop would make on it: `download = none` models
`GooglePlacesService.download_photo` returning no bytes, `some bytes`
a successful download; `detection` is the verdict `is_menu_photo` would
return for the downloaded bytes. -/
structure Candidate where
  photoRef : String
  download : Option (List Nat)
  detection : Detection
deriving Repr, DecidableEq

/-- The acceptance test of the screening loop
(`menu_photo_service.py` line 170):
`detection["is_menu"] and detection["confidence"] >= min_confidence`. -/
def accepts (d : Detection) (min_confidence : ℚ) : Bool :=
  d.is_menu && decide (min_confidence ≤ d.confidence)

/-- Observable outcome of `download_and_filter_menu_photos`:
`accepted` is `menu_photos` (the accepted candidates, in acceptance order),
`checked` the final value of the `photos_checked` counter, `examined` the
candidates the `for` loop iterated over (in order), and `classified` the
candidates on which `is_menu_photo` was actually invoked. -/
structure ScreenResult where
  accepted : List Candidate
  checked : Nat
  examined : List Candidate
  classified : List Candidate
deriving Repr, DecidableEq

/-- The body of the `for photo in details["photos"][:max_photos]` loop of
`download_and_filter_menu_photos` (lines 135-181): bump `photos_checked`;
on a failed download `continue` without classifying; otherwise classify,
and on acceptance append to `menu_photos` and `break` once
`len(menu_photos) >= 3`. -/
def screenLoop (t : ℚ) (cands : List Candidate) (acc exam cls : List Candidate)
    (checked : Nat) : ScreenResult :=
  match cands with
  | [] => ⟨acc, checked, exam, cls⟩
  | c :: rest =>
    if c.download.isNone then
      screenLoop t rest acc (exam ++ [c]) cls (checked + 1)
    else if accepts c.detection t then
      if 3 ≤ acc.length + 1 then
        ⟨acc ++ [c], checked + 1, exam ++ [c], cls ++ [c]⟩
      else
        screenLoop t rest (acc ++ [c]) (exam ++ [c]) (cls ++ [c]) (checked + 1)
    else
      screenLoop t rest acc (exam ++ [c]) (cls ++ [c]) (checked + 1)

/-- `MenuPhotoService.download_and_filter_menu_photos` restricted to its
screening loop: the catalog photo list is sliced to the first `max_photos`
entries and screened in order.  Defaults in the source:
`max_photos = 10`, `min_confidence = 0.7`. -/
def download_and_filter_menu_photos (photos : List Candidate) (max_photos : Nat)
    (min_confidence : ℚ) : ScreenResult :=
  screenLoop min_confidence (photos.take max_photos) [] [] [] 0

/-- One step of `deduplicate_menu_items`: the Python dict `seen_items` is
modelled as an association list in key-insertion order (Python ≥ 3.7 dict
semantics).  A new key is appended; an existing key keeps its position and
its stored item is replaced only when the incoming item's `notes` is
strictly longer. -/
def dedupStep (acc : List (String × MenuItem)) (item : MenuItem) :
    List (String × MenuItem) :=
  let key := lowerStrip item.name
  match acc.find? (fun p => p.1 == key) with
  | none => acc ++ [(key, item)]
  | some (_, existing) =>
      if existing.notes.length < item.notes.length then
        acc.map (fun p => if p.1 == key then (key, item) else p)
      else acc

/-- `MenuPhotoService.deduplicate_menu_items` (lines 196-221): fold the
items through the `seen_items` dict and return `list(seen_items.values())`. -/
def deduplicate_menu_items (items : List MenuItem) : List MenuItem :=
  (items.foldl dedupStep []).map Prod.snd

/- ----------------------------------------------------------------------
   vision_service.py — response parsing layer
   ---------------------------------------------------------------------- -/

/-- JSON values, as produced by Python `json.loads` (object keys unique,
later duplicates already collapsed by the parser). -/
inductive Json where
  | null
  | bool (b : Bool)
  | num (n : Int)
  | str (s : String)
  | arr (xs : List Json)
  | obj (fields : List (String × Json))

/-- Python `result.get(key, default)`: defined only when `result` is a
dict (`none` models the `AttributeError` a non-dict would raise, which the
surrounding `except json.JSONDecodeError` does not catch). -/
def dictGet (j : Json) (key : String) (dflt : Json) : Option Json :=
  match j with
  | .obj fields => some (((fields.find? (fun p => p.1 == key)).map Prod.snd).getD dflt)
  | _ => none

/-- The synthetic item returned by `analyze_menu_image` when the response
body fails to parse as JSON (vision_service.py lines 134-140), as the raw
dict the function builds. -/
def parseErrorJson (msg : String) : Json :=
  .obj [("name", .str "Error parsing menu"), ("safety", .str "caution"),
        ("triggers", .arr []), ("notes", .str msg)]

/-- The parse step of `vision_service.analyze_menu_image`
(lines 130-140), as a function of the outcome of
`json.loads(response_text)` after code fences have been stripped:
`some j` when the body parsed to the JSON value `j`, `none` when
`json.JSONDecodeError` was raised.  The result is `some items` for a
normal return (`result.get("menu_items", [])`, or the singleton
parse-error sentinel), `none` when an uncaught exception propagates. -/
def parse_menu_response (parsed : Option Json) (errMsg : String) : Option Json :=
  match parsed with
  | some j => dictGet j "menu_items" (.arr [])
  | none => some (.arr [parseErrorJson errMsg])

/-- The `{"menu_items": [], "error": "..."}` payload the extraction prompt
specifies for unreadable menus. -/
def emptyErrorPayload (err : String) : Json :=
  .obj [("menu_items", .arr []), ("error", .str err)]

/- ----------------------------------------------------------------------
   vision_service.py — item-level outcome used by the analyze endpoint
   ---------------------------------------------------------------------- -/

/-- Outcome of the whole `analyze_menu_image` call as the router observes
it.  The Anthropic API call (`client.messages.create`, line 95) is outside
the function's `try` block, so a network / API error `raises`; a response
body that is not JSON yields the parse-error sentinel; a well-formed
`{"menu_items": [...]}` body yields its structured items.  (JSON bodies
whose items do not match the item schema are outside this model.) -/
inductive VisionResult where
  | raises
  | unparseable (errMsg : String)
  | parsed (items : List MenuItem)
deriving Repr, DecidableEq

/-- The parse-error sentinel of vision_service.py lines 134-140, at the
structured-item level. -/
def parseErrorItem (msg : String) : MenuItem :=
  { name := "Error parsing menu", safety := "caution", triggers := [],
    notes := msg }

/-- `analyze_menu_image` at the structured-item level: `none` models a
propagated exception, `some items` a normal return. -/
def analyze_menu_image : VisionResult → Option (List MenuItem)
  | .raises => none
  | .unparseable msg => some [parseErrorItem msg]
  | .parsed items => some items

/- ----------------------------------------------------------------------
   inference_service.py
   ---------------------------------------------------------------------- -/

/-- One category of a protocol definition file:
`{description, triggers}`. -/
structure CategoryData where
  description : String
  triggers : List String
deriving Repr, DecidableEq

/-- One protocol definition file, after the source's legacy-key resolution
(`data.get("trigger_categories") or data.get("high_fodmap_categories") or
data.get("illegal_categories") or data.get("high_residue_categories", ...)`
— the categories field is the first present alternative; the remaining
fields are read directly). -/
structure ProtocolData where
  protocol_id : String
  protocol_name : String
  description : String
  trigger_categories : List (String × CategoryData)
  common_restaurant_triggers : List String
  safe_alternatives : List String
deriving Repr, DecidableEq

/-- The per-protocol info dict appended to `combined_triggers["protocols"]`. -/
structure ProtocolInfo where
  id : String
  name : String
  description : String
deriving Repr, DecidableEq

/-- An environment of protocol definition files: what
`_load_protocol_file` returns per protocol id (`none` — unknown id or
missing file — makes `load_protocol_triggers` skip the protocol).  The
actual `backend/data/*.json` files are not part of the sources under
verification, so results over this environment quantify over their
possible contents. -/
def ProtocolEnv : Type := String → Option ProtocolData

/-- Python `set.add` observed through the final `list(...)` conversion: a
set of strings built by insertions is the list of its elements in first-
insertion order, each element kept once under **exact** string equality. -/
def pySetAdd (s : List String) (x : String) : List String :=
  if x ∈ s then s else s ++ [x]

/-- Python `set.update(iterable)`: fold `pySetAdd` over the iterable. -/
def pySetUpdate (s : List String) (xs : List String) : List String :=
  xs.foldl pySetAdd s

/-- The composed trigger data `load_protocol_triggers` builds.  The three
union collections are Python sets converted to lists at the end (modelled
in first-insertion order); `detailed_triggers` is a dict keyed by the
input protocol id, modelled as a function so that Lean equality matches
Python's insertion-order-insensitive dict equality. -/
structure CombinedTriggers where
  protocols : List ProtocolInfo
  all_triggers : List String
  common_restaurant_triggers : List String
  safe_alternatives : List String
  detailed_triggers : String → Option (List (String × CategoryData))

/-- The initial `combined_triggers` dict. -/
def emptyCombined : CombinedTriggers :=
  ⟨[], [], [], [], fun _ => none⟩

/-- The body of the `for protocol in protocols` loop of
`load_protocol_triggers` (lines 62-105): skip protocols without a backing
definition; otherwise append the protocol info, union in the category
triggers, record the per-protocol detail map, and union in the common
restaurant triggers and safe alternatives. -/
def addProtocol (env : ProtocolEnv) (acc : CombinedTriggers) (protocol : String) :
    CombinedTriggers :=
  match env protocol with
  | none => acc
  | some data =>
    { protocols := acc.protocols ++
        [⟨data.protocol_id, data.protocol_name, data.description⟩],
      all_triggers := data.trigger_categories.foldl
        (fun s cat => pySetUpdate s cat.2.triggers) acc.all_triggers,
      common_restaurant_triggers :=
        pySetUpdate acc.common_restaurant_triggers data.common_restaurant_triggers,
      safe_alternatives := pySetUpdate acc.safe_alternatives data.safe_alternatives,
      detailed_triggers := fun q =>
        if q = protocol then
          some (data.trigger_categories.map
            (fun cat => (cat.1, ⟨cat.2.description, cat.2.triggers⟩)))
        else acc.detailed_triggers q }

/-- `load_protocol_triggers(protocols)` (inference_service.py lines
44-112) over a definition-file environment. -/
def load_protocol_triggers (env : ProtocolEnv) (protocols : List String) :
    CombinedTriggers :=
  protocols.foldl (addProtocol env) emptyCombined

/- ----------------------------------------------------------------------
   routers/restaurants.py
   ---------------------------------------------------------------------- -/

/-- A `restaurant_menu_items` row as the analyze endpoint writes and the
menu endpoint reads it (columns not touched by the pipeline — price,
category, timestamps — are omitted).  `description` receives the item's
`notes` (`item.get("notes", "")`). -/
structure ItemRow where
  restaurantId : Nat
  name : String
  description : String
  is_active : Bool
deriving Repr, DecidableEq

/-- A `restaurants` row restricted to the columns the pipeline reads or
writes: the Google place id, `menu_last_scanned` (modelled in whole days)
and `total_scans` (a numeric string in the schema, modelled as the number
it encodes). -/
structure RestRow where
  rid : Nat
  place_id : String
  menu_last_scanned : Option Nat
  total_scans : Nat
deriving Repr, DecidableEq

/-- Committed database state visible to readers. -/
structure Db where
  restaurants : List RestRow
  items : List ItemRow
deriving Repr, DecidableEq

/-- The active item rows of one restaurant, as the cached-menu read
endpoint queries them (`restaurant_id == rid AND is_active == True`). -/
def activeFor (db : Db) (rid : Nat) : List ItemRow :=
  db.items.filter (fun it => it.restaurantId == rid && it.is_active)

/-- The freshness classification of the cached-menu read endpoint
(restaurants.py lines 321-326): under 7 days fresh, under 30 recent,
otherwise stale. -/
def freshnessLabel (days_since_scan : Nat) : String :=
  if days_since_scan < 7 then "fresh"
  else if days_since_scan < 30 then "recent"
  else "stale"

/-- The `valid_protocols` set of the analyze endpoint. -/
def valid_protocols : List String :=
  ["low_fodmap", "scd", "low_residue", "gluten_free", "dairy_free",
   "nut_free", "peanut_free", "soy_free", "egg_free", "shellfish_free",
   "fish_free", "pork_free", "red_meat_free", "vegan", "vegetarian",
   "paleo", "keto", "low_histamine"]

/-- The analyze request body: a base64 image string and a protocol list. -/
structure AnalyzeRequest where
  image : String
  protocols : List String
deriving Repr, DecidableEq

/-- Outcomes of the external calls one analyze request makes, plus the
request-scoped values the endpoint draws (`dt.utcnow()`, `uuid.uuid4()`):
`details` is the `GooglePlacesService.get_place_details` result (`none`
when the place does not resolve), `vision` the vision-call outcome, `now`
the timestamp in days, `newRid` the id a newly created restaurant row
would get. -/
structure AnalyzeEnv where
  details : Option String
  vision : VisionResult
  now : Nat
  newRid : Nat
deriving Repr, DecidableEq

/-- Errors the endpoint can surface: HTTP 400, HTTP 404, or an uncaught
exception propagating out of the handler. -/
inductive AnalyzeError where
  | badRequest (msg : String)
  | notFound (msg : String)
  | exception
deriving Repr, DecidableEq

/-- `db.query(Restaurant).filter(google_place_id == place_id).first()`. -/
def findRestaurant (db : Db) (pid : String) : Option RestRow :=
  db.restaurants.find? (fun r => r.place_id == pid)

/-- The first committed unit of the analyze endpoint (restaurants.py lines
416-451, ending at the first `db.commit()`): create the restaurant row
with `total_scans = 1` when absent; otherwise bump `menu_last_scanned` and
`total_scans` and set `is_active = False` on **all** of the restaurant's
item rows.  Returns the restaurant id together with the committed state. -/
def commitOne (db : Db) (pid : String) (env : AnalyzeEnv) : Nat × Db :=
  match findRestaurant db pid with
  | none =>
      (env.newRid,
       { restaurants := db.restaurants ++
           [⟨env.newRid, pid, some env.now, 1⟩],
         items := db.items })
  | some r =>
      (r.rid,
       { restaurants := db.restaurants.map (fun x =>
           if x.rid == r.rid then
             { x with menu_last_scanned := some env.now,
                      total_scans := x.total_scans + 1 }
           else x),
         items := db.items.map (fun it =>
           if it.restaurantId == r.rid then { it with is_active := false }
           else it) })

/-- The second committed unit (lines 453-466, ending at the second
`db.commit()`): insert one active row per analyzed item. -/
def commitTwo (db : Db) (rid : Nat) (items : List MenuItem) : Db :=
  { db with items := db.items ++
      items.map (fun m => ⟨rid, m.name, m.notes, true⟩) }

/-- `analyze_restaurant_menu` (restaurants.py lines 355-478): validate the
protocols (400), resolve the place (404), reject an empty image (400),
run the vision analysis (whose exceptions propagate uncaught), then commit
twice.  On success the result carries the list of committed states in
commit order together with the items returned to the client; readers can
observe every state in that list. -/
def analyze_restaurant_menu (env : AnalyzeEnv) (pid : String)
    (req : AnalyzeRequest) (db : Db) :
    Except AnalyzeError (List Db × List MenuItem) :=
  if ¬ req.protocols.all (fun p => valid_protocols.contains p) then
    .error (.badRequest "Invalid protocol")
  else
    match env.details with
    | none => .error (.notFound "Restaurant not found on Google Places")
    | some _ =>
      if req.image = "" then .error (.badRequest "Menu image is required")
      else
        match analyze_menu_image env.vision with
        | none => .error .exception
        | some menu_items =>
          let step1 := commitOne db pid env
          let db2 := commitTwo step1.2 step1.1 menu_items
          .ok ([step1.2, db2], menu_items)

/- ----------------------------------------------------------------------
   Concrete screening scenario (used as evaluation witnesses)
   ---------------------------------------------------------------------- -/

/-- A candidate that downloads and is confidently detected as a menu. -/
def menuCand (ref : String) : Candidate :=
  ⟨ref, some [1], ⟨true, 1, "menu"⟩⟩

/-- A candidate that downloads but is detected as not a menu. -/
def nonMenuCand (ref : String) : Candidate :=
  ⟨ref, some [2], ⟨false, 0, "food photo"⟩⟩

/-- A candidate whose download fails. -/
def failCand (ref : String) : Candidate :=
  ⟨ref, none, ⟨true, 1, "never classified"⟩⟩

/-- A six-photo catalog: a failing download and a rejected photo sit among
four menu photos, so the loop stops after the third acceptance with the
fourth menu photo unscanned. -/
def exPhotos : List Candidate :=
  [menuCand "a", failCand "b", nonMenuCand "c", menuCand "d", menuCand "e",
   menuCand "f"]



/- ----------------------------------------------------------------------
   Concrete analyze scenario (shared by the endpoint counterexamples and
   evaluation witnesses)
   ---------------------------------------------------------------------- -/

/-- An existing restaurant row: last scanned on day 100, five scans. -/
def exRest : RestRow := ⟨1, "place1", some 100, 5⟩

/-- Its single currently-active menu item. -/
def exOldItem : ItemRow := ⟨1, "Old Burger", "old notes", true⟩

/-- The committed database before the request. -/
def exDb : Db := ⟨[exRest], [exOldItem]⟩

/-- A valid analyze request. -/
def exReq : AnalyzeRequest := ⟨"img64", ["vegan"]⟩

/-- The item the vision analysis extracts. -/
def exItem : MenuItem := ⟨"Pasta", "safe", [], "fine"⟩

/-- Environment: the place resolves, the vision call parses one item, the
request arrives on day 101 — one day after the last scan, so the record is
fresh. -/
def exEnv : AnalyzeEnv := ⟨some "R", .parsed [exItem], 101, 7⟩

/-- The state committed by the endpoint's first `db.commit()`: timestamp
and counter bumped, old item deactivated, nothing inserted yet. -/
def exDb1 : Db :=
  ⟨[⟨1, "place1", some 101, 6⟩], [⟨1, "Old Burger", "old notes", false⟩]⟩

/-- The state committed by the second `db.commit()`: the new item row is
now present and active. -/
def exDb2 : Db :=
  ⟨[⟨1, "place1", some 101, 6⟩],
   [⟨1, "Old Burger", "old notes", false⟩, ⟨1, "Pasta", "fine", true⟩]⟩

/-- Environment in which the place resolves but the vision API call itself
raises (the `client.messages.create` call sits outside the `try` block of
`analyze_menu_image`, so nothing catches it). -/
def exEnvRaises : AnalyzeEnv := ⟨some "R", .raises, 101, 7⟩

/-- Environment in which the place resolves and the vision call returns a
body that is not JSON. -/
def exEnvBadJson : AnalyzeEnv := ⟨some "R", .unparseable "bad json", 101, 7⟩

/-- Two vision items whose names collide after lowercasing and trimming. -/
def exDupItems : List MenuItem :=
  [⟨"Burger", "safe", [], ""⟩, ⟨"burger ", "caution", [], ""⟩]

/-- Environment whose vision output carries the colliding names. -/
def exDupEnv : AnalyzeEnv := ⟨some "R", .parsed exDupItems, 101, 7⟩

/-- Final committed state of the duplicate-name run. -/
def exDupDb2 : Db :=
  ⟨[⟨1, "place1", some 101, 6⟩],
   [⟨1, "Old Burger", "old notes", false⟩, ⟨1, "Burger", "", true⟩,
    ⟨1, "burger ", "", true⟩]⟩

/-- The trigger strings one protocol id contributes: none for an unknown
or missing definition, otherwise all category triggers. -/
def protoTriggers (env : ProtocolEnv) (p : String) : List String :=
  match env p with
  | none => []
  | some d => d.trigger_categories.flatMap (fun c => c.2.triggers)

/-- The common-restaurant-trigger strings one protocol id contributes. -/
def protoCommon (env : ProtocolEnv) (p : String) : List String :=
  match env p with
  | none => []
  | some d => d.common_restaurant_triggers

/-- The safe-alternative strings one protocol id contributes. -/
def protoSafe (env : ProtocolEnv) (p : String) : List String :=
  match env p with
  | none => []
  | some d => d.safe_alternatives

/-- The per-protocol detail map one protocol definition contributes. -/
def protoDetail (d : ProtocolData) : List (String × CategoryData) :=
  d.trigger_categories.map (fun cat => (cat.1, ⟨cat.2.description, cat.2.triggers⟩))

/-- A protocol definition whose category triggers contain two strings that
differ only in case and trailing whitespace.  The composition keeps both:
Python sets deduplicate under exact string equality only. -/
def exProtoData : ProtocolData :=
  ⟨"p1", "Proto One", "d1", [("cat", ⟨"cat desc", ["Garlic", "garlic "]⟩)],
   ["Garlic"], []⟩

/-- A second, unrelated protocol definition. -/
def exProtoData2 : ProtocolData :=
  ⟨"p2", "Proto Two", "d2", [("cat2", ⟨"cat2 desc", ["soy"]⟩)], [], ["rice"]⟩

/-- A definition-file environment holding the two protocols above. -/
def exProtoEnv : ProtocolEnv := fun p =>
  if p = "p1" then some exProtoData
  else if p = "p2" then some exProtoData2
  else none

deriving instance DecidableEq for Except

/- ----------------------------------------------------------------------
   Screening-loop lemmas
   ---------------------------------------------------------------------- -/

lemma screenLoop_nil (t : ℚ) (acc exam cls : List Candidate) (k : Nat) :
    screenLoop t [] acc exam cls k = ⟨acc, k, exam, cls⟩ := rfl

lemma screenLoop_cons_fail (t : ℚ) (c : Candidate) (rest acc exam cls : List Candidate)
    (k : Nat) (h : c.download.isNone = true) :
    screenLoop t (c :: rest) acc exam cls k =
      screenLoop t rest acc (exam ++ [c]) cls (k + 1) := by
  simp [screenLoop, h]

lemma screenLoop_cons_third (t : ℚ) (c : Candidate) (rest acc exam cls : List Candidate)
    (k : Nat) (h1 : c.download.isNone = false) (h2 : accepts c.detection t = true)
    (h3 : 3 ≤ acc.length + 1) :
    screenLoop t (c :: rest) acc exam cls k =
      ⟨acc ++ [c], k + 1, exam ++ [c], cls ++ [c]⟩ := by
  simp [screenLoop, h1, h2, h3]

lemma screenLoop_cons_accept (t : ℚ) (c : Candidate) (rest acc exam cls : List Candidate)
    (k : Nat) (h1 : c.download.isNone = false) (h2 : accepts c.detection t = true)
    (h3 : ¬ 3 ≤ acc.length + 1) :
    screenLoop t (c :: rest) acc exam cls k =
      screenLoop t rest (acc ++ [c]) (exam ++ [c]) (cls ++ [c]) (k + 1) := by
  simp [screenLoop, h1, h2, h3]

lemma screenLoop_cons_reject (t : ℚ) (c : Candidate) (rest acc exam cls : List Candidate)
    (k : Nat) (h1 : c.download.isNone = false) (h2 : accepts c.detection t = false) :
    screenLoop t (c :: rest) acc exam cls k =
      screenLoop t rest acc (exam ++ [c]) (cls ++ [c]) (k + 1) := by
  simp [screenLoop, h1, h2]

/-- The loop consumes a front segment of the remaining candidates: the
examined list grows by a front segment of `cands` and the counter counts
exactly those candidates. -/
lemma screenLoop_examined (t : ℚ) (cands : List Candidate) :
    ∀ acc exam cls k, ∃ n, n ≤ cands.length ∧
      (screenLoop t cands acc exam cls k).examined = exam ++ cands.take n ∧
      (screenLoop t cands acc exam cls k).checked = k + n := by
  induction cands with
  | nil =>
    intro acc exam cls k
    exact ⟨0, by simp [screenLoop_nil]⟩
  | cons c rest ih =>
    intro acc exam cls k
    cases hdl : c.download.isNone with
    | true =>
      obtain ⟨n, hn, hex, hck⟩ := ih acc (exam ++ [c]) cls (k + 1)
      refine ⟨n + 1, by simpa using hn, ?_, ?_⟩
      · rw [screenLoop_cons_fail t c rest acc exam cls k hdl, hex]
        simp
      · rw [screenLoop_cons_fail t c rest acc exam cls k hdl, hck]
        omega
    | false =>
      cases hacc : accepts c.detection t with
      | true =>
        by_cases hfull : 3 ≤ acc.length + 1
        · refine ⟨1, by simp, ?_, ?_⟩
          · rw [screenLoop_cons_third t c rest acc exam cls k hdl hacc hfull]
            simp
          · rw [screenLoop_cons_third t c rest acc exam cls k hdl hacc hfull]
        · obtain ⟨n, hn, hex, hck⟩ := ih (acc ++ [c]) (exam ++ [c]) (cls ++ [c]) (k + 1)
          refine ⟨n + 1, by simpa using hn, ?_, ?_⟩
          · rw [screenLoop_cons_accept t c rest acc exam cls k hdl hacc hfull, hex]
            simp
          · rw [screenLoop_cons_accept t c rest acc exam cls k hdl hacc hfull, hck]
            omega
      | false =>
        obtain ⟨n, hn, hex, hck⟩ := ih acc (exam ++ [c]) (cls ++ [c]) (k + 1)
        refine ⟨n + 1, by simpa using hn, ?_, ?_⟩
        · rw [screenLoop_cons_reject t c rest acc exam cls k hdl hacc, hex]
          simp
        · rw [screenLoop_cons_reject t c rest acc exam cls k hdl hacc, hck]
          omega

/-- The accepted list stays below the hard cap of 3 as long as it enters
below it. -/
lemma screenLoop_accepted_le (t : ℚ) (cands : List Candidate) :
    ∀ acc exam cls k, acc.length < 3 →
      (screenLoop t cands acc exam cls k).accepted.length ≤ 3 := by
  induction cands with
  | nil =>
    intro acc exam cls k h
    rw [screenLoop_nil]
    exact Nat.le_of_lt h
  | cons c rest ih =>
    intro acc exam cls k h
    cases hdl : c.download.isNone with
    | true =>
      rw [screenLoop_cons_fail t c rest acc exam cls k hdl]
      exact ih acc (exam ++ [c]) cls (k + 1) h
    | false =>
      cases hacc : accepts c.detection t with
      | true =>
        by_cases hfull : 3 ≤ acc.length + 1
        · rw [screenLoop_cons_third t c rest acc exam cls k hdl hacc hfull]
          simp only [List.length_append, List.length_singleton]
          omega
        · rw [screenLoop_cons_accept t c rest acc exam cls k hdl hacc hfull]
          exact ih (acc ++ [c]) (exam ++ [c]) (cls ++ [c]) (k + 1)
            (by simp only [List.length_append, List.length_singleton]; omega)
      | false =>
        rw [screenLoop_cons_reject t c rest acc exam cls k hdl hacc]
        exact ih acc (exam ++ [c]) (cls ++ [c]) (k + 1) h

/-- Every element of the accepted list passed the acceptance test. -/
lemma screenLoop_accepted_accepts (t : ℚ) (cands : List Candidate) :
    ∀ acc exam cls k, (∀ c ∈ acc, accepts c.detection t = true) →
      ∀ c ∈ (screenLoop t cands acc exam cls k).accepted,
        accepts c.detection t = true := by
  induction cands with
  | nil =>
    intro acc exam cls k h
    rw [screenLoop_nil]
    exact h
  | cons c rest ih =>
    intro acc exam cls k h
    have hext : ∀ x ∈ acc ++ [c], accepts c.detection t = true →
        accepts x.detection t = true := by
      intro x hx hc
      rcases List.mem_append.mp hx with hx | hx
      · exact h x hx
      · rw [List.mem_singleton.mp hx]
        exact hc
    cases hdl : c.download.isNone with
    | true =>
      rw [screenLoop_cons_fail t c rest acc exam cls k hdl]
      exact ih acc (exam ++ [c]) cls (k + 1) h
    | false =>
      cases hacc : accepts c.detection t with
      | true =>
        by_cases hfull : 3 ≤ acc.length + 1
        · rw [screenLoop_cons_third t c rest acc exam cls k hdl hacc hfull]
          intro x hx
          exact hext x hx hacc
        · rw [screenLoop_cons_accept t c rest acc exam cls k hdl hacc hfull]
          exact ih (acc ++ [c]) (exam ++ [c]) (cls ++ [c]) (k + 1)
            (fun x hx => hext x hx hacc)
      | false =>
        rw [screenLoop_cons_reject t c rest acc exam cls k hdl hacc]
        exact ih acc (exam ++ [c]) (cls ++ [c]) (k + 1) h

/-- The accepted list is an in-order selection from the examined list. -/
lemma screenLoop_accepted_sublist (t : ℚ) (cands : List Candidate) :
    ∀ acc exam cls k, acc.Sublist exam →
      (screenLoop t cands acc exam cls k).accepted.Sublist
        (screenLoop t cands acc exam cls k).examined := by
  induction cands with
  | nil =>
    intro acc exam cls k h
    rw [screenLoop_nil]
    exact h
  | cons c rest ih =>
    intro acc exam cls k h
    cases hdl : c.download.isNone with
    | true =>
      rw [screenLoop_cons_fail t c rest acc exam cls k hdl]
      exact ih acc (exam ++ [c]) cls (k + 1)
        (h.trans (List.sublist_append_left exam [c]))
    | false =>
      cases hacc : accepts c.detection t with
      | true =>
        by_cases hfull : 3 ≤ acc.length + 1
        · rw [screenLoop_cons_third t c rest acc exam cls k hdl hacc hfull]
          exact h.append (List.Sublist.refl [c])
        · rw [screenLoop_cons_accept t c rest acc exam cls k hdl hacc hfull]
          exact ih (acc ++ [c]) (exam ++ [c]) (cls ++ [c]) (k + 1)
            (h.append (List.Sublist.refl [c]))
      | false =>
        rw [screenLoop_cons_reject t c rest acc exam cls k hdl hacc]
        exact ih acc (exam ++ [c]) (cls ++ [c]) (k + 1)
          (h.trans (List.sublist_append_left exam [c]))

/-- Once three candidates are accepted the loop never looks at anything
further: appending more candidates does not change the result. -/
lemma screenLoop_early_stop (t : ℚ) (cands : List Candidate) :
    ∀ extra acc exam cls k, acc.length < 3 →
      3 ≤ (screenLoop t cands acc exam cls k).accepted.length →
      screenLoop t (cands ++ extra) acc exam cls k =
        screenLoop t cands acc exam cls k := by
  induction cands with
  | nil =>
    intro extra acc exam cls k hlt h3
    rw [screenLoop_nil] at h3
    simp only at h3
    omega
  | cons c rest ih =>
    intro extra acc exam cls k hlt h3
    rw [List.cons_append]
    cases hdl : c.download.isNone with
    | true =>
      rw [screenLoop_cons_fail t c rest acc exam cls k hdl] at h3
      rw [screenLoop_cons_fail t c (rest ++ extra) acc exam cls k hdl,
        screenLoop_cons_fail t c rest acc exam cls k hdl]
      exact ih extra acc (exam ++ [c]) cls (k + 1) hlt h3
    | false =>
      cases hacc : accepts c.detection t with
      | true =>
        by_cases hfull : 3 ≤ acc.length + 1
        · rw [screenLoop_cons_third t c (rest ++ extra) acc exam cls k hdl hacc hfull,
            screenLoop_cons_third t c rest acc exam cls k hdl hacc hfull]
        · rw [screenLoop_cons_accept t c rest acc exam cls k hdl hacc hfull] at h3
          rw [screenLoop_cons_accept t c (rest ++ extra) acc exam cls k hdl hacc hfull,
            screenLoop_cons_accept t c rest acc exam cls k hdl hacc hfull]
          exact ih extra (acc ++ [c]) (exam ++ [c]) (cls ++ [c]) (k + 1)
            (by simp only [List.length_append, List.length_singleton]; omega) h3
      | false =>
        rw [screenLoop_cons_reject t c rest acc exam cls k hdl hacc] at h3
        rw [screenLoop_cons_reject t c (rest ++ extra) acc exam cls k hdl hacc,
          screenLoop_cons_reject t c rest acc exam cls k hdl hacc]
        exact ih extra acc (exam ++ [c]) (cls ++ [c]) (k + 1) hlt h3

/-- The classified list is exactly the examined candidates whose download
succeeded. -/
lemma screenLoop_classified (t : ℚ) (cands : List Candidate) :
    ∀ acc exam cls k, cls = exam.filter (fun c => c.download.isSome) →
      (screenLoop t cands acc exam cls k).classified =
        (screenLoop t cands acc exam cls k).examined.filter
          (fun c => c.download.isSome) := by
  induction cands with
  | nil =>
    intro acc exam cls k h
    rw [screenLoop_nil]
    exact h
  | cons c rest ih =>
    intro acc exam cls k h
    cases hdl : c.download.isNone with
    | true =>
      rw [screenLoop_cons_fail t c rest acc exam cls k hdl]
      refine ih acc (exam ++ [c]) cls (k + 1) ?_
      have hs : c.download.isSome = false := by
        cases hd : c.download with
        | none => simp
        | some v => rw [hd] at hdl; simp at hdl
      rw [List.filter_append, h]
      simp [hs]
    | false =>
      have hs : c.download.isSome = true := by
        cases hd : c.download with
        | none => rw [hd] at hdl; simp at hdl
        | some v => simp
      have hcls : cls ++ [c] = (exam ++ [c]).filter (fun c => c.download.isSome) := by
        rw [List.filter_append, h]
        simp [hs]
      cases hacc : accepts c.detection t with
      | true =>
        by_cases hfull : 3 ≤ acc.length + 1
        · rw [screenLoop_cons_third t c rest acc exam cls k hdl hacc hfull]
          exact hcls
        · rw [screenLoop_cons_accept t c rest acc exam cls k hdl hacc hfull]
          exact ih (acc ++ [c]) (exam ++ [c]) (cls ++ [c]) (k + 1) hcls
      | false =>
        rw [screenLoop_cons_reject t c rest acc exam cls k hdl hacc]
        exact ih acc (exam ++ [c]) (cls ++ [c]) (k + 1) hcls

/-- Counting downloads: the examined candidates split into the classified
ones (download succeeded) and the skipped ones (download failed). -/
lemma length_filter_download_split (l : List Candidate) :
    (l.filter (fun c => c.download.isSome)).length +
      (l.filter (fun c => c.download.isNone)).length = l.length := by
  induction l with
  | nil => rfl
  | cons c rest ih =>
    cases hd : c.download with
    | none => simp [List.filter_cons, hd]; omega
    | some v => simp [List.filter_cons, hd]; omega


/- ----------------------------------------------------------------------
   C7 — vision extraction parse contract
   ---------------------------------------------------------------------- -/

/-- C7: in the extraction step, a response that parses to the
empty-with-error payload yields an empty item list, while a response that
fails to parse as JSON does not raise: it yields exactly one synthetic
item whose name is the "Error parsing menu" sentinel and whose safety is
`caution` — so an infrastructure parse failure is distinguishable from an
unreadable or empty menu. -/
theorem menu_extraction_parse_contract :
    (∀ e m, parse_menu_response (some (emptyErrorPayload e)) m =
      some (Json.arr [])) ∧
    (∀ m, parse_menu_response none m = some (Json.arr [parseErrorJson m]) ∧
      [parseErrorJson m].length = 1 ∧
      dictGet (parseErrorJson m) "name" (Json.arr []) =
        some (Json.str "Error parsing menu") ∧
      dictGet (parseErrorJson m) "safety" (Json.arr []) =
        some (Json.str "caution")) :=
  ⟨fun _ _ => rfl, fun _ => ⟨rfl, rfl, rfl, rfl⟩⟩

/- ----------------------------------------------------------------------
   C8 — acceptance rule
   ---------------------------------------------------------------------- -/

/-- C8: a photo verdict is accepted exactly when `is_menu` is true and the
confidence is at least the acceptance threshold (`min_confidence`, default
0.7 in the source); a confidence exactly equal to the threshold is
accepted; and every photo the screening loop accepts passed this rule. -/
theorem acceptance_rule :
    (∀ d t, accepts d t = true ↔ (d.is_menu = true ∧ t ≤ d.confidence)) ∧
    (∀ (t : ℚ) r, accepts ⟨true, t, r⟩ t = true) ∧
    (∀ (c : Candidate) photos maxP t,
      c ∈ (download_and_filter_menu_photos photos maxP t).accepted →
      c.detection.is_menu = true ∧ t ≤ c.detection.confidence) := by
  refine ⟨?_, ?_, ?_⟩
  · intro d t
    simp [accepts]
  · intro t r
    simp [accepts]
  · intro c photos maxP t hc
    have h := screenLoop_accepted_accepts t (photos.take maxP) [] [] [] 0
      (by intro x hx; simp at hx) c hc
    simpa [accepts] using h

/-- C8 witness: the first accepted photo of the concrete catalog satisfies
the acceptance rule at threshold 1. -/
theorem acceptance_rule_witness :
    (menuCand "a").detection.is_menu = true ∧
      (1 : ℚ) ≤ (menuCand "a").detection.confidence :=
  acceptance_rule.2.2 (menuCand "a") exPhotos 10 1 (by decide)

/- ----------------------------------------------------------------------
   C9 — screening loop policy
   ---------------------------------------------------------------------- -/

/-- C9: the screening loop examines candidates in catalog order (the
examined list is a front segment of the first `max_photos` catalog
entries, and the accepted list is an in-order selection from it), examines
at most `max_photos` candidates, accepts at most 3 photos, and once 3
photos are accepted never scans a further candidate: appending further
catalog photos leaves the outcome unchanged. -/
theorem screening_loop_policy (photos : List Candidate) (maxP : Nat) (t : ℚ) :
    (download_and_filter_menu_photos photos maxP t).examined =
      (photos.take maxP).take
        (download_and_filter_menu_photos photos maxP t).checked ∧
    (download_and_filter_menu_photos photos maxP t).checked ≤ maxP ∧
    (download_and_filter_menu_photos photos maxP t).accepted.length ≤ 3 ∧
    (download_and_filter_menu_photos photos maxP t).accepted.Sublist
      (download_and_filter_menu_photos photos maxP t).examined ∧
    ((download_and_filter_menu_photos photos maxP t).accepted.length = 3 →
      ∀ extra, download_and_filter_menu_photos (photos ++ extra) maxP t =
        download_and_filter_menu_photos photos maxP t) := by
  obtain ⟨n, hn, hex, hck⟩ :=
    screenLoop_examined t (photos.take maxP) [] [] [] 0
  refine ⟨?_, ?_, ?_, ?_, ?_⟩
  · unfold download_and_filter_menu_photos
    rw [hex, hck]
    simp
  · unfold download_and_filter_menu_photos
    rw [hck]
    have := List.length_take maxP photos
    omega
  · exact screenLoop_accepted_le t (photos.take maxP) [] [] [] 0 (by simp)
  · exact screenLoop_accepted_sublist t (photos.take maxP) [] [] [] 0
      (List.Sublist.refl [])
  · intro h3 extra
    unfold download_and_filter_menu_photos
    rw [List.take_append_eq_append_take]
    exact screenLoop_early_stop t (photos.take maxP)
      (extra.take (maxP - photos.length)) [] [] [] 0 (by simp)
      (by unfold download_and_filter_menu_photos at h3; omega)

/-- C9 witness: on the concrete catalog the loop accepts exactly 3 photos,
stops with the fourth menu photo unexamined, and appending another photo
changes nothing. -/
theorem screening_loop_policy_witness :
    (download_and_filter_menu_photos exPhotos 10 1).accepted.length = 3 ∧
    (download_and_filter_menu_photos exPhotos 10 1).checked = 5 ∧
    download_and_filter_menu_photos (exPhotos ++ [menuCand "g"]) 10 1 =
      download_and_filter_menu_photos exPhotos 10 1 :=
  ⟨by decide, by decide,
    (screening_loop_policy exPhotos 10 1).2.2.2.2 (by decide) [menuCand "g"]⟩

/- ----------------------------------------------------------------------
   C10 — failed downloads consume slots
   ---------------------------------------------------------------------- -/

/-- C10: a candidate whose download fails is skipped without invoking the
vision classification (the classified list is exactly the examined
candidates whose download succeeded), yet it consumes one of the
examination slots (the number classified plus the number of failed
downloads equals the `photos_checked` counter), and the examined
candidates are always a front segment of the first `max_photos` catalog
entries — later catalog photos are never examined in place of failed
ones. -/
theorem failed_download_consumes_slot (photos : List Candidate) (maxP : Nat)
    (t : ℚ) :
    (download_and_filter_menu_photos photos maxP t).classified =
      (download_and_filter_menu_photos photos maxP t).examined.filter
        (fun c => c.download.isSome) ∧
    (download_and_filter_menu_photos photos maxP t).classified.length +
      ((download_and_filter_menu_photos photos maxP t).examined.filter
        (fun c => c.download.isNone)).length =
      (download_and_filter_menu_photos photos maxP t).checked ∧
    (download_and_filter_menu_photos photos maxP t).examined =
      (photos.take maxP).take
        (download_and_filter_menu_photos photos maxP t).checked := by
  obtain ⟨n, hn, hex, hck⟩ :=
    screenLoop_examined t (photos.take maxP) [] [] [] 0
  have hcls := screenLoop_classified t (photos.take maxP) [] [] [] 0 rfl
  have hlen : (screenLoop t (photos.take maxP) [] [] [] 0).examined.length =
      (screenLoop t (photos.take maxP) [] [] [] 0).checked := by
    rw [hex, hck]
    simp only [List.length_take] at hn
    simp only [List.nil_append, List.length_take]
    omega
  unfold download_and_filter_menu_photos
  refine ⟨hcls, ?_, ?_⟩
  · rw [hcls, length_filter_download_split, hlen]
  · rw [hck, hex]
    simp

/- ----------------------------------------------------------------------
   Analyze-endpoint lemmas
   ---------------------------------------------------------------------- -/

/-- A valid request on a resolved place with a returning vision call runs
both commits: the result is the two-state trace and the vision items. -/
lemma analyze_run_ok (env : AnalyzeEnv) (pid : String) (req : AnalyzeRequest)
    (db : Db) (items : List MenuItem)
    (hval : req.protocols.all (fun p => valid_protocols.contains p) = true)
    (hdet : env.details.isSome = true)
    (himg : ¬ req.image = "")
    (hvis : analyze_menu_image env.vision = some items) :
    analyze_restaurant_menu env pid req db =
      .ok ([(commitOne db pid env).2,
            commitTwo (commitOne db pid env).2 (commitOne db pid env).1 items],
           items) := by
  obtain ⟨d, hd⟩ := Option.isSome_iff_exists.mp hdet
  simp [analyze_restaurant_menu, hval, hd, himg, hvis]
  intro x hx
  have hmem := List.all_eq_true.mp hval x hx
  simpa using hmem

/-- `commitOne` on an existing restaurant row. -/
lemma commitOne_existing (db : Db) (pid : String) (env : AnalyzeEnv) (r : RestRow)
    (hfind : findRestaurant db pid = some r) :
    commitOne db pid env =
      (r.rid,
       { restaurants := db.restaurants.map (fun x =>
           if x.rid == r.rid then
             { x with menu_last_scanned := some env.now,
                      total_scans := x.total_scans + 1 }
           else x),
         items := db.items.map (fun it =>
           if it.restaurantId == r.rid then { it with is_active := false }
           else it) }) := by
  unfold commitOne
  rw [hfind]

/-- After the first commit deactivates every item row of the restaurant,
its active set is empty. -/
lemma activeFor_deactivated (items : List ItemRow) (rid : Nat) :
    (items.map (fun it => if it.restaurantId == rid
        then { it with is_active := false } else it)).filter
      (fun it => it.restaurantId == rid && it.is_active) = [] := by
  apply List.filter_eq_nil_iff.mpr
  intro a ha
  obtain ⟨it, _, rfl⟩ := List.mem_map.mp ha
  by_cases h : it.restaurantId == rid
  · simp [h]
  · simp [h]

/-- After the second commit, the restaurant's active set is exactly the
rows inserted for the analyzed items. -/
lemma activeFor_commitTwo (db : Db) (rid : Nat) (items : List MenuItem)
    (h : activeFor db rid = []) :
    activeFor (commitTwo db rid items) rid =
      items.map (fun m => ⟨rid, m.name, m.notes, true⟩) := by
  unfold activeFor commitTwo at *
  rw [List.filter_append, h, List.nil_append]
  apply List.filter_eq_self.mpr
  intro a ha
  obtain ⟨m, _, rfl⟩ := List.mem_map.mp ha
  simp

/-- The update of the first commit keeps the restaurant row findable by
place id, with the bumped timestamp and counter. -/
lemma find?_update_rest (l : List RestRow) (pid : String) (r : RestRow)
    (env : AnalyzeEnv)
    (hfind : l.find? (fun x => x.place_id == pid) = some r) :
    (l.map (fun x => if x.rid == r.rid then
        { x with menu_last_scanned := some env.now,
                 total_scans := x.total_scans + 1 }
      else x)).find? (fun x => x.place_id == pid) =
      some { r with menu_last_scanned := some env.now,
                    total_scans := r.total_scans + 1 } := by
  induction l with
  | nil => simp at hfind
  | cons a l ih =>
    by_cases hpa : (a.place_id == pid) = true
    · rw [List.find?_cons_of_pos l hpa] at hfind
      obtain rfl : a = r := by injection hfind
      simp only [List.map_cons]
      have hhead : ((if (a.rid == a.rid) = true then
          { a with menu_last_scanned := some env.now,
                   total_scans := a.total_scans + 1 }
        else a) : RestRow) =
          { a with menu_last_scanned := some env.now,
                   total_scans := a.total_scans + 1 } := by
        rw [if_pos (by simp)]
      rw [hhead, List.find?_cons_of_pos _ (by simpa using hpa)]
    · rw [List.find?_cons_of_neg l hpa] at hfind
      simp only [List.map_cons]
      have hplace : ((if (a.rid == r.rid) = true then
          { a with menu_last_scanned := some env.now,
                   total_scans := a.total_scans + 1 }
        else a) : RestRow).place_id = a.place_id := by
      -- place_id is untouched whichever branch the update takes
        by_cases h : (a.rid == r.rid) = true
        · rw [if_pos h]
        · rw [if_neg h]
      rw [List.find?_cons_of_neg _ (by rw [hplace]; exact hpa)]
      exact ih hfind

/-- Composite of the two commits on an existing restaurant: the final
active set is exactly the inserted rows. -/
lemma activeFor_after_commits (db : Db) (pid : String) (env : AnalyzeEnv)
    (r : RestRow) (items : List MenuItem)
    (hfind : findRestaurant db pid = some r) :
    activeFor (commitTwo (commitOne db pid env).2 (commitOne db pid env).1
        items) r.rid =
      items.map (fun m => ⟨r.rid, m.name, m.notes, true⟩) := by
  rw [commitOne_existing db pid env r hfind]
  exact activeFor_commitTwo _ r.rid items (activeFor_deactivated db.items r.rid)


/- ----------------------------------------------------------------------
   C1 — commit atomicity
   ---------------------------------------------------------------------- -/

/-- C1 counterexample: the write is **not** one atomic unit.  On a
concrete run the endpoint commits twice, and the first committed state
`exDb1` — distinct from the final state — already has the old active item
deactivated while the new items are not yet inserted: a reader between the
two commits observes an empty active set where the claim requires the
deactivation and the insertion to be inseparable. -/
theorem analyze_commit_not_atomic :
    analyze_restaurant_menu exEnv "place1" exReq exDb =
      .ok ([exDb1, exDb2], [exItem]) ∧
    activeFor exDb 1 = [exOldItem] ∧
    activeFor exDb1 1 = [] ∧
    activeFor exDb2 1 = [⟨1, "Pasta", "fine", true⟩] ∧
    exDb1 ≠ exDb2 := by decide

/-- C1 amended: the endpoint commits the write in two units.  For every
valid request on an existing restaurant, the committed trace is exactly
two states: in the first, the restaurant's active item set is already
empty (all prior items deactivated, nothing inserted); only in the second
does the active set equal the rows of the new analysis.  No committed
state mixes items of two passes, but the intermediate deactivated-empty
state is committed and observable. -/
theorem analyze_two_phase_commit (env : AnalyzeEnv) (pid : String)
    (req : AnalyzeRequest) (db : Db) (r : RestRow) (items : List MenuItem)
    (hval : req.protocols.all (fun p => valid_protocols.contains p) = true)
    (hdet : env.details.isSome = true)
    (himg : ¬ req.image = "")
    (hvis : analyze_menu_image env.vision = some items)
    (hfind : findRestaurant db pid = some r) :
    ∃ d1 d2, analyze_restaurant_menu env pid req db = .ok ([d1, d2], items) ∧
      activeFor d1 r.rid = [] ∧
      activeFor d2 r.rid =
        items.map (fun m => ⟨r.rid, m.name, m.notes, true⟩) := by
  refine ⟨(commitOne db pid env).2,
    commitTwo (commitOne db pid env).2 (commitOne db pid env).1 items,
    analyze_run_ok env pid req db items hval hdet himg hvis, ?_, ?_⟩
  · rw [commitOne_existing db pid env r hfind]
    exact activeFor_deactivated db.items r.rid
  · rw [commitOne_existing db pid env r hfind]
    exact activeFor_commitTwo _ r.rid items (activeFor_deactivated db.items r.rid)

/-- C1 amended, witness: the concrete run instantiates the two-phase
characterization. -/
theorem analyze_two_phase_commit_witness :
    ∃ d1 d2, analyze_restaurant_menu exEnv "place1" exReq exDb =
        .ok ([d1, d2], [exItem]) ∧
      activeFor d1 exRest.rid = [] ∧
      activeFor d2 exRest.rid =
        [exItem].map (fun m => ⟨exRest.rid, m.name, m.notes, true⟩) :=
  analyze_two_phase_commit exEnv "place1" exReq exDb exRest [exItem]
    (by decide) (by decide) (by decide) (by decide) (by decide)

/- ----------------------------------------------------------------------
   C2 — no freshness short-circuit on writes
   ---------------------------------------------------------------------- -/

/-- C2 counterexample: a write on a **fresh** record (last scanned one day
ago) is not short-circuited.  The endpoint still runs the analysis —
the response carries the vision items, not the cached active set — and
still commits a new item set and increments the contribution counter
from 5 to 6.  (The request model has no forced-refresh flag at all, and
the endpoint never consults `menu_last_scanned`.) -/
theorem fresh_write_not_short_circuited :
    freshnessLabel (101 - 100) = "fresh" ∧
    exRest.menu_last_scanned = some 100 ∧
    exEnv.now = 101 ∧
    analyze_restaurant_menu exEnv "place1" exReq exDb =
      .ok ([exDb1, exDb2], [exItem]) ∧
    (findRestaurant exDb2 "place1").map RestRow.total_scans = some 6 ∧
    exRest.total_scans = 5 ∧
    [exItem].map MenuItem.name ≠ (activeFor exDb 1).map ItemRow.name := by
  decide

/-- C2 amended: the analyze endpoint has no freshness short-circuit.  For
every valid request on an existing restaurant — with no hypothesis on how
recent the last analysis is, so in particular on a fresh record — the
vision analysis runs, a new active set is committed, `menu_last_scanned`
is reset to the request time, and `total_scans` is incremented. -/
theorem analyze_always_commits (env : AnalyzeEnv) (pid : String)
    (req : AnalyzeRequest) (db : Db) (r : RestRow) (items : List MenuItem)
    (hval : req.protocols.all (fun p => valid_protocols.contains p) = true)
    (hdet : env.details.isSome = true)
    (himg : ¬ req.image = "")
    (hvis : analyze_menu_image env.vision = some items)
    (hfind : findRestaurant db pid = some r) :
    ∃ d1 d2, analyze_restaurant_menu env pid req db = .ok ([d1, d2], items) ∧
      findRestaurant d2 pid =
        some { r with menu_last_scanned := some env.now,
                      total_scans := r.total_scans + 1 } ∧
      activeFor d2 r.rid =
        items.map (fun m => ⟨r.rid, m.name, m.notes, true⟩) := by
  refine ⟨(commitOne db pid env).2,
    commitTwo (commitOne db pid env).2 (commitOne db pid env).1 items,
    analyze_run_ok env pid req db items hval hdet himg hvis, ?_, ?_⟩
  · rw [commitOne_existing db pid env r hfind]
    exact find?_update_rest db.restaurants pid r env hfind
  · rw [commitOne_existing db pid env r hfind]
    exact activeFor_commitTwo _ r.rid items (activeFor_deactivated db.items r.rid)

/-- C2 amended, witness: the concrete fresh-record run. -/
theorem analyze_always_commits_witness :
    ∃ d1 d2, analyze_restaurant_menu exEnv "place1" exReq exDb =
        .ok ([d1, d2], [exItem]) ∧
      findRestaurant d2 "place1" =
        some { exRest with menu_last_scanned := some exEnv.now,
                           total_scans := exRest.total_scans + 1 } ∧
      activeFor d2 exRest.rid =
        [exItem].map (fun m => ⟨exRest.rid, m.name, m.notes, true⟩) :=
  analyze_always_commits exEnv "place1" exReq exDb exRest [exItem]
    (by decide) (by decide) (by decide) (by decide) (by decide)

/- ----------------------------------------------------------------------
   C3 — hard failure after the restaurant resolves
   ---------------------------------------------------------------------- -/


/-- C3 counterexample: a request whose restaurant identity resolves can
still hard-fail: when the vision capability is unreachable or erroring,
the exception propagates out of the endpoint instead of degrading to an
empty or partial item list. -/
theorem resolved_request_can_raise :
    exEnvRaises.details = some "R" ∧
    analyze_restaurant_menu exEnvRaises "place1" exReq exDb =
      .error .exception := by
  decide

/-- C3 amended: after the restaurant resolves, a request with valid
protocols and a non-empty image succeeds whenever the vision call returns
a response — including a malformed response, which degrades to the
caution-flagged parse-error sentinel.  The two remaining hard-failure
paths are an empty image field (HTTP 400) and a vision call that raises
(propagated exception). -/
theorem resolved_request_succeeds_when_vision_returns (env : AnalyzeEnv)
    (pid : String) (req : AnalyzeRequest) (db : Db) (items : List MenuItem)
    (hval : req.protocols.all (fun p => valid_protocols.contains p) = true)
    (hdet : env.details.isSome = true)
    (himg : ¬ req.image = "")
    (hvis : analyze_menu_image env.vision = some items) :
    ∃ v, analyze_restaurant_menu env pid req db = .ok v :=
  ⟨_, analyze_run_ok env pid req db items hval hdet himg hvis⟩


/-- C3 amended, witness: with a malformed vision response the request
still succeeds (carrying the parse-error sentinel item). -/
theorem resolved_request_succeeds_witness :
    ∃ v, analyze_restaurant_menu exEnvBadJson "place1" exReq exDb = .ok v :=
  resolved_request_succeeds_when_vision_returns exEnvBadJson "place1" exReq exDb
    [parseErrorItem "bad json"] (by decide) (by decide) (by decide) (by decide)

/- ----------------------------------------------------------------------
   Deduplication lemmas
   ---------------------------------------------------------------------- -/

lemma dedupStep_of_none (acc : List (String × MenuItem)) (item : MenuItem)
    (hf : acc.find? (fun p => p.1 == lowerStrip item.name) = none) :
    dedupStep acc item = acc ++ [(lowerStrip item.name, item)] := by
  simp only [dedupStep, hf]

lemma dedupStep_of_some_replace (acc : List (String × MenuItem)) (item : MenuItem)
    (pe : String × MenuItem)
    (hf : acc.find? (fun p => p.1 == lowerStrip item.name) = some pe)
    (hlen : pe.2.notes.length < item.notes.length) :
    dedupStep acc item = acc.map (fun p =>
      if p.1 == lowerStrip item.name then (lowerStrip item.name, item) else p) := by
  obtain ⟨k0, existing⟩ := pe
  simp only [dedupStep, hf]
  rw [if_pos hlen]

lemma dedupStep_of_some_keep (acc : List (String × MenuItem)) (item : MenuItem)
    (pe : String × MenuItem)
    (hf : acc.find? (fun p => p.1 == lowerStrip item.name) = some pe)
    (hlen : ¬ pe.2.notes.length < item.notes.length) :
    dedupStep acc item = acc := by
  obtain ⟨k0, existing⟩ := pe
  simp only [dedupStep, hf]
  rw [if_neg hlen]

/-- One dict step preserves the dedup invariants: the stored keys are
pairwise distinct, and each stored key is the lowercased-trimmed name of
its stored item. -/
lemma dedupStep_invariant (acc : List (String × MenuItem)) (item : MenuItem)
    (h1 : (acc.map Prod.fst).Nodup)
    (h2 : ∀ p ∈ acc, p.1 = lowerStrip p.2.name) :
    ((dedupStep acc item).map Prod.fst).Nodup ∧
      ∀ p ∈ dedupStep acc item, p.1 = lowerStrip p.2.name := by
  cases hf : acc.find? (fun p => p.1 == lowerStrip item.name) with
  | none =>
    rw [dedupStep_of_none acc item hf]
    have hnotin : lowerStrip item.name ∉ acc.map Prod.fst := by
      intro hmem
      obtain ⟨p, hp, hfst⟩ := List.mem_map.mp hmem
      exact List.find?_eq_none.mp hf p hp (by simp [hfst])
    constructor
    · rw [List.map_append]
      simp [List.nodup_append, h1, hnotin]
    · intro p hp
      rcases List.mem_append.mp hp with hp | hp
      · exact h2 p hp
      · rw [List.mem_singleton.mp hp]
  | some pe =>
    by_cases hlen : pe.2.notes.length < item.notes.length
    · rw [dedupStep_of_some_replace acc item pe hf hlen]
      have hkeys : (acc.map (fun p => if p.1 == lowerStrip item.name
          then (lowerStrip item.name, item) else p)).map Prod.fst =
            acc.map Prod.fst := by
        rw [List.map_map]
        apply List.map_congr_left
        intro p _
        by_cases h : (p.1 == lowerStrip item.name) = true
        · simp only [Function.comp_apply, if_pos h]
          exact (eq_of_beq h).symm
        · simp only [Function.comp_apply, if_neg h]
      refine ⟨by rw [hkeys]; exact h1, ?_⟩
      intro p hp
      obtain ⟨p0, hp0, rfl⟩ := List.mem_map.mp hp
      by_cases h : (p0.1 == lowerStrip item.name) = true
      · rw [if_pos h]
      · rw [if_neg h]
        exact h2 p0 hp0
    · rw [dedupStep_of_some_keep acc item pe hf hlen]
      exact ⟨h1, h2⟩

/-- The fold underlying `deduplicate_menu_items` preserves the dedup
invariants. -/
lemma dedup_fold_invariant (items : List MenuItem) :
    ∀ acc, (acc.map Prod.fst).Nodup → (∀ p ∈ acc, p.1 = lowerStrip p.2.name) →
      ((items.foldl dedupStep acc).map Prod.fst).Nodup ∧
        ∀ p ∈ items.foldl dedupStep acc, p.1 = lowerStrip p.2.name := by
  induction items with
  | nil =>
    intro acc h1 h2
    exact ⟨h1, h2⟩
  | cons it rest ih =>
    intro acc h1 h2
    obtain ⟨g1, g2⟩ := dedupStep_invariant acc it h1 h2
    exact ih (dedupStep acc it) g1 g2

/-- `deduplicate_menu_items` output is duplicate-free under the
lowercased-trimmed-name key. -/
lemma deduplicate_nodup (items : List MenuItem) :
    ((deduplicate_menu_items items).map (fun m => lowerStrip m.name)).Nodup := by
  obtain ⟨h1, h2⟩ := dedup_fold_invariant items []
    (by simp) (by intro p hp; simp at hp)
  unfold deduplicate_menu_items
  rw [List.map_map]
  have hmaps : (items.foldl dedupStep []).map
      ((fun m => lowerStrip m.name) ∘ Prod.snd) =
      (items.foldl dedupStep []).map Prod.fst :=
    List.map_congr_left (fun p hp => (h2 p hp).symm)
  rw [hmaps]
  exact h1

/- ----------------------------------------------------------------------
   C4 — deduplication of the committed active set
   ---------------------------------------------------------------------- -/


/-- C4 counterexample: the analyze endpoint commits the classifier output
without deduplication, so a committed active set can contain two items
whose names are equal case-insensitively after trimming ("Burger" and
"burger ") — the claimed at-most-one-item-per-name invariant fails. -/
theorem committed_set_can_hold_duplicate_names :
    analyze_restaurant_menu exDupEnv "place1" exReq exDb =
      .ok ([exDb1, exDupDb2], exDupItems) ∧
    (activeFor exDupDb2 1).map (fun it => lowerStrip it.name) =
      ["burger", "burger"] ∧
    ¬ ((activeFor exDupDb2 1).map (fun it => lowerStrip it.name)).Nodup := by
  decide

/-- C4 amended: the dedup guarantee lives only in the
`deduplicate_menu_items` helper — its output always has at most one item
per lowercased-trimmed name — but the analyze endpoint commits the
classifier output as-is, so the committed active set satisfies the
one-item-per-name invariant exactly when the classifier output already
does. -/
theorem dedup_helper_guarantee_not_applied_on_commit (env : AnalyzeEnv)
    (pid : String) (req : AnalyzeRequest) (db : Db) (r : RestRow)
    (items : List MenuItem)
    (hval : req.protocols.all (fun p => valid_protocols.contains p) = true)
    (hdet : env.details.isSome = true)
    (himg : ¬ req.image = "")
    (hvis : analyze_menu_image env.vision = some items)
    (hfind : findRestaurant db pid = some r)
    (hnd : (items.map (fun m => lowerStrip m.name)).Nodup) :
    (∀ its, ((deduplicate_menu_items its).map
      (fun m => lowerStrip m.name)).Nodup) ∧
    ∃ d1 d2, analyze_restaurant_menu env pid req db = .ok ([d1, d2], items) ∧
      ((activeFor d2 r.rid).map (fun it => lowerStrip it.name)).Nodup := by
  refine ⟨deduplicate_nodup, (commitOne db pid env).2,
    commitTwo (commitOne db pid env).2 (commitOne db pid env).1 items,
    analyze_run_ok env pid req db items hval hdet himg hvis, ?_⟩
  rw [activeFor_after_commits db pid env r items hfind, List.map_map]
  exact hnd

/-- C4 amended, witness: the concrete run with a duplicate-free classifier
output. -/
theorem dedup_helper_guarantee_witness :
    (∀ its, ((deduplicate_menu_items its).map
      (fun m => lowerStrip m.name)).Nodup) ∧
    ∃ d1 d2, analyze_restaurant_menu exEnv "place1" exReq exDb =
        .ok ([d1, d2], [exItem]) ∧
      ((activeFor d2 exRest.rid).map (fun it => lowerStrip it.name)).Nodup :=
  dedup_helper_guarantee_not_applied_on_commit exEnv "place1" exReq exDb exRest
    [exItem] (by decide) (by decide) (by decide) (by decide) (by decide)
    (by decide)

/- ----------------------------------------------------------------------
   Trigger-composition lemmas
   ---------------------------------------------------------------------- -/

lemma pySetUpdate_nil (s : List String) : pySetUpdate s [] = s := rfl

lemma pySetUpdate_cons (s : List String) (a : String) (l : List String) :
    pySetUpdate s (a :: l) = pySetUpdate (pySetAdd s a) l := rfl

lemma mem_pySetAdd (s : List String) (x y : String) :
    y ∈ pySetAdd s x ↔ y ∈ s ∨ y = x := by
  unfold pySetAdd
  by_cases h : x ∈ s
  · rw [if_pos h]
    constructor
    · exact Or.inl
    · rintro (hy | rfl)
      · exact hy
      · exact h
  · rw [if_neg h]
    simp

lemma pySetAdd_nodup (s : List String) (x : String) (h : s.Nodup) :
    (pySetAdd s x).Nodup := by
  unfold pySetAdd
  by_cases hx : x ∈ s
  · rw [if_pos hx]
    exact h
  · rw [if_neg hx]
    simp [List.nodup_append, h, hx]

lemma mem_pySetUpdate (xs : List String) :
    ∀ s y, y ∈ pySetUpdate s xs ↔ y ∈ s ∨ y ∈ xs := by
  induction xs with
  | nil =>
    intro s y
    simp [pySetUpdate_nil]
  | cons a l ih =>
    intro s y
    rw [pySetUpdate_cons, ih, mem_pySetAdd]
    simp only [List.mem_cons]
    tauto

lemma pySetUpdate_nodup (xs : List String) :
    ∀ s, s.Nodup → (pySetUpdate s xs).Nodup := by
  induction xs with
  | nil =>
    intro s h
    exact h
  | cons a l ih =>
    intro s h
    rw [pySetUpdate_cons]
    exact ih _ (pySetAdd_nodup s a h)

lemma mem_catFold (cats : List (String × CategoryData)) :
    ∀ s y, y ∈ cats.foldl (fun s cat => pySetUpdate s cat.2.triggers) s ↔
      y ∈ s ∨ ∃ c ∈ cats, y ∈ c.2.triggers := by
  induction cats with
  | nil =>
    intro s y
    simp
  | cons c l ih =>
    intro s y
    rw [List.foldl_cons, ih, mem_pySetUpdate]
    simp only [List.mem_cons, exists_eq_or_imp]
    tauto

lemma catFold_nodup (cats : List (String × CategoryData)) :
    ∀ s, s.Nodup →
      (cats.foldl (fun s cat => pySetUpdate s cat.2.triggers) s).Nodup := by
  induction cats with
  | nil =>
    intro s h
    exact h
  | cons c l ih =>
    intro s h
    rw [List.foldl_cons]
    exact ih _ (pySetUpdate_nodup c.2.triggers s h)


lemma mem_addProtocol_all (env : ProtocolEnv) (acc : CombinedTriggers)
    (p y : String) :
    y ∈ (addProtocol env acc p).all_triggers ↔
      y ∈ acc.all_triggers ∨ y ∈ protoTriggers env p := by
  cases he : env p with
  | none => simp [addProtocol, he, protoTriggers]
  | some d =>
    simp only [addProtocol, he, protoTriggers]
    rw [mem_catFold]
    simp [List.mem_flatMap]

lemma mem_addProtocol_common (env : ProtocolEnv) (acc : CombinedTriggers)
    (p y : String) :
    y ∈ (addProtocol env acc p).common_restaurant_triggers ↔
      y ∈ acc.common_restaurant_triggers ∨ y ∈ protoCommon env p := by
  cases he : env p with
  | none => simp [addProtocol, he, protoCommon]
  | some d =>
    simp only [addProtocol, he, protoCommon]
    rw [mem_pySetUpdate]

lemma mem_addProtocol_safe (env : ProtocolEnv) (acc : CombinedTriggers)
    (p y : String) :
    y ∈ (addProtocol env acc p).safe_alternatives ↔
      y ∈ acc.safe_alternatives ∨ y ∈ protoSafe env p := by
  cases he : env p with
  | none => simp [addProtocol, he, protoSafe]
  | some d =>
    simp only [addProtocol, he, protoSafe]
    rw [mem_pySetUpdate]

lemma mem_load_all (env : ProtocolEnv) (ps : List String) :
    ∀ acc y, y ∈ (ps.foldl (addProtocol env) acc).all_triggers ↔
      y ∈ acc.all_triggers ∨ ∃ p ∈ ps, y ∈ protoTriggers env p := by
  induction ps with
  | nil =>
    intro acc y
    simp
  | cons p l ih =>
    intro acc y
    rw [List.foldl_cons, ih, mem_addProtocol_all]
    simp only [List.mem_cons, exists_eq_or_imp]
    tauto

lemma mem_load_common (env : ProtocolEnv) (ps : List String) :
    ∀ acc y, y ∈ (ps.foldl (addProtocol env) acc).common_restaurant_triggers ↔
      y ∈ acc.common_restaurant_triggers ∨ ∃ p ∈ ps, y ∈ protoCommon env p := by
  induction ps with
  | nil =>
    intro acc y
    simp
  | cons p l ih =>
    intro acc y
    rw [List.foldl_cons, ih, mem_addProtocol_common]
    simp only [List.mem_cons, exists_eq_or_imp]
    tauto

lemma mem_load_safe (env : ProtocolEnv) (ps : List String) :
    ∀ acc y, y ∈ (ps.foldl (addProtocol env) acc).safe_alternatives ↔
      y ∈ acc.safe_alternatives ∨ ∃ p ∈ ps, y ∈ protoSafe env p := by
  induction ps with
  | nil =>
    intro acc y
    simp
  | cons p l ih =>
    intro acc y
    rw [List.foldl_cons, ih, mem_addProtocol_safe]
    simp only [List.mem_cons, exists_eq_or_imp]
    tauto

lemma detailed_load (env : ProtocolEnv) (ps : List String) :
    ∀ acc q, (ps.foldl (addProtocol env) acc).detailed_triggers q =
      if q ∈ ps ∧ (env q).isSome then (env q).map protoDetail
      else acc.detailed_triggers q := by
  induction ps with
  | nil =>
    intro acc q
    simp
  | cons p l ih =>
    intro acc q
    rw [List.foldl_cons, ih]
    by_cases hql : q ∈ l
    · by_cases hs : (env q).isSome = true
      · rw [if_pos ⟨hql, hs⟩, if_pos ⟨List.mem_cons_of_mem p hql, hs⟩]
      · rw [if_neg (fun h => hs h.2), if_neg (fun h => hs h.2)]
        cases he : env p with
        | none => simp [addProtocol, he]
        | some d =>
          simp only [addProtocol, he]
          rw [if_neg]
          intro hqp
          rw [hqp, he] at hs
          simp at hs
    · by_cases hqp : q = p
      · subst hqp
        cases he : env q with
        | none =>
          rw [if_neg (fun h => by simp at h), if_neg (fun h => by simp at h)]
          simp [addProtocol, he]
        | some d =>
          rw [if_neg (fun h => hql h.1),
            if_pos ⟨List.mem_cons_self q l, rfl⟩]
          simp [addProtocol, he]
          exact (List.map_id d.trigger_categories).symm
      · rw [if_neg (fun h => hql h.1),
          if_neg (fun h => (List.mem_cons.mp h.1).elim hqp hql)]
        cases he : env p with
        | none => simp [addProtocol, he]
        | some d => simp [addProtocol, he, hqp]

/- ----------------------------------------------------------------------
   C5 — exact-only deduplication of the union collections
   ---------------------------------------------------------------------- -/


/-- C5 counterexample: the union collections are **not** duplicate-free
under case- and whitespace-insensitive comparison.  Over a
schema-conforming definition environment, composing one protocol whose
triggers contain "Garlic" and "garlic " keeps both strings, and they
become equal after lowercasing and trimming. -/
theorem trigger_union_case_duplicates :
    (load_protocol_triggers exProtoEnv ["p1"]).all_triggers =
      ["Garlic", "garlic "] ∧
    lowerStrip "Garlic" = lowerStrip "garlic " ∧
    ¬ ((load_protocol_triggers exProtoEnv ["p1"]).all_triggers.map
      lowerStrip).Nodup := by
  refine ⟨by decide, by decide, by decide⟩

/-- C5 amended: for every definition environment and protocol list, the
composed union collections (all triggers, common restaurant triggers, safe
alternatives) contain no duplicate strings under **exact** comparison —
the Python-set guarantee; strings that differ only in case or surrounding
whitespace may coexist. -/
theorem trigger_unions_nodup_exact (env : ProtocolEnv)
    (protocols : List String) :
    (load_protocol_triggers env protocols).all_triggers.Nodup ∧
    (load_protocol_triggers env protocols).common_restaurant_triggers.Nodup ∧
    (load_protocol_triggers env protocols).safe_alternatives.Nodup := by
  suffices h : ∀ acc : CombinedTriggers, acc.all_triggers.Nodup →
      acc.common_restaurant_triggers.Nodup → acc.safe_alternatives.Nodup →
      (protocols.foldl (addProtocol env) acc).all_triggers.Nodup ∧
      (protocols.foldl (addProtocol env) acc).common_restaurant_triggers.Nodup ∧
      (protocols.foldl (addProtocol env) acc).safe_alternatives.Nodup by
    exact h emptyCombined List.nodup_nil List.nodup_nil List.nodup_nil
  induction protocols with
  | nil =>
    intro acc h1 h2 h3
    exact ⟨h1, h2, h3⟩
  | cons p l ih =>
    intro acc h1 h2 h3
    rw [List.foldl_cons]
    refine ih (addProtocol env acc p) ?_ ?_ ?_
    · cases he : env p with
      | none => simpa [addProtocol, he] using h1
      | some d =>
        simp only [addProtocol, he]
        exact catFold_nodup d.trigger_categories acc.all_triggers h1
    · cases he : env p with
      | none => simpa [addProtocol, he] using h2
      | some d =>
        simp only [addProtocol, he]
        exact pySetUpdate_nodup d.common_restaurant_triggers _ h2
    · cases he : env p with
      | none => simpa [addProtocol, he] using h3
      | some d =>
        simp only [addProtocol, he]
        exact pySetUpdate_nodup d.safe_alternatives _ h3

/- ----------------------------------------------------------------------
   C6 — order independence of the composition
   ---------------------------------------------------------------------- -/

/-- C6 counterexample: composing the same protocol set in two different
orders does **not** yield equal results: the `protocols` info list of the
composed dict follows input order, so the two composed values differ. -/
theorem compose_not_order_independent :
    (["p1", "p2"] : List String).toFinset = (["p2", "p1"] : List String).toFinset ∧
    (load_protocol_triggers exProtoEnv ["p1", "p2"]).protocols ≠
      (load_protocol_triggers exProtoEnv ["p2", "p1"]).protocols ∧
    load_protocol_triggers exProtoEnv ["p1", "p2"] ≠
      load_protocol_triggers exProtoEnv ["p2", "p1"] := by
  refine ⟨by decide, by decide, fun h => ?_⟩
  exact absurd (congrArg CombinedTriggers.protocols h) (by decide)

/-- C6 amended: for protocol-id lists that are equal as sets, the composed
trigger collections are **set**-equal (same membership for all triggers,
common restaurant triggers and safe alternatives) and the per-protocol
detail maps are equal; but the composed results as a whole need not be
equal, because the `protocols` info list follows input order. -/
theorem compose_set_level_order_independent (env : ProtocolEnv)
    (P1 P2 : List String) (hset : P1.toFinset = P2.toFinset) :
    (∀ y, y ∈ (load_protocol_triggers env P1).all_triggers ↔
      y ∈ (load_protocol_triggers env P2).all_triggers) ∧
    (∀ y, y ∈ (load_protocol_triggers env P1).common_restaurant_triggers ↔
      y ∈ (load_protocol_triggers env P2).common_restaurant_triggers) ∧
    (∀ y, y ∈ (load_protocol_triggers env P1).safe_alternatives ↔
      y ∈ (load_protocol_triggers env P2).safe_alternatives) ∧
    (load_protocol_triggers env P1).detailed_triggers =
      (load_protocol_triggers env P2).detailed_triggers := by
  have hmem : ∀ p : String, p ∈ P1 ↔ p ∈ P2 := by
    intro p
    rw [← List.mem_toFinset, hset, List.mem_toFinset]
  unfold load_protocol_triggers
  refine ⟨?_, ?_, ?_, ?_⟩
  · intro y
    rw [mem_load_all env P1 emptyCombined y, mem_load_all env P2 emptyCombined y]
    exact or_congr Iff.rfl
      (exists_congr fun p => and_congr_left fun _ => hmem p)
  · intro y
    rw [mem_load_common env P1 emptyCombined y,
      mem_load_common env P2 emptyCombined y]
    exact or_congr Iff.rfl
      (exists_congr fun p => and_congr_left fun _ => hmem p)
  · intro y
    rw [mem_load_safe env P1 emptyCombined y,
      mem_load_safe env P2 emptyCombined y]
    exact or_congr Iff.rfl
      (exists_congr fun p => and_congr_left fun _ => hmem p)
  · funext q
    rw [detailed_load env P1 emptyCombined q, detailed_load env P2 emptyCombined q]
    exact if_congr (and_congr_left fun _ => hmem q) rfl rfl

/-- C6 amended, witness: the two orderings of the concrete two-protocol
environment have the same trigger membership and equal detail maps. -/
theorem compose_set_level_witness :
    ("Garlic" ∈ (load_protocol_triggers exProtoEnv ["p1", "p2"]).all_triggers ↔
      "Garlic" ∈ (load_protocol_triggers exProtoEnv ["p2", "p1"]).all_triggers) ∧
    (load_protocol_triggers exProtoEnv ["p1", "p2"]).detailed_triggers =
      (load_protocol_triggers exProtoEnv ["p2", "p1"]).detailed_triggers :=
  ⟨(compose_set_level_order_independent exProtoEnv ["p1", "p2"] ["p2", "p1"]
      (by decide)).1 "Garlic",
   (compose_set_level_order_independent exProtoEnv ["p1", "p2"] ["p2", "p1"]
      (by decide)).2.2.2⟩

end MenuPipeline
